import Mathlib

/-!
Verification of the PlanScan single-image → 3D pipeline
(`single_image_3d/predict.py`).

Numeric code is embedded over `ℚ` (floats modelled as exact rationals);
2-D arrays (depth maps) are `List (List ℚ)` in row-major order, so
`depth[v][u]` is row `v` (the image y / height axis) and column `u`
(the image x / width axis), matching the `numpy` indexing in the source.
External library routines (torch.hub model loading, OpenCV's bilateral
filter, Open3D's point-cloud / mesh operators) are not part of this
repository; they are modelled as explicit parameters, or — where the
claim needs their mathematical shape — from the spec's description,
and each such definition says so in its doc comment.
-/

namespace PlanScan

/-- A 3×3 matrix with explicitly named entries, standing for the
`np.array([[fx, 0, cx], [0, fy, cy], [0, 0, 1]])` intrinsics matrix
built by `infer_intrinsics`; `mij` is row `i`, column `j`. -/
structure Mat3 where
  m00 : ℚ
  m01 : ℚ
  m02 : ℚ
  m10 : ℚ
  m11 : ℚ
  m12 : ℚ
  m20 : ℚ
  m21 : ℚ
  m22 : ℚ
deriving DecidableEq

/-- Embeds `infer_intrinsics(img_w, img_h, focal_px)`:
`cx = img_w / 2.0`, `cy = img_h / 2.0`,
`fx = fy = 1.2 * max(img_w, img_h)` when `focal_px is None`, otherwise
`fx = fy = float(focal_px)`; returns
`[[fx, 0, cx], [0, fy, cy], [0, 0, 1]]`. -/
def infer_intrinsics (img_w img_h : ℤ) (focal_px : Option ℚ := none) : Mat3 :=
  let cx : ℚ := (img_w : ℚ) / 2
  let cy : ℚ := (img_h : ℚ) / 2
  let f : ℚ :=
    match focal_px with
    | none => 6 / 5 * ((max img_w img_h : ℤ) : ℚ)
    | some fp => fp
  ⟨f, 0, cx, 0, f, cy, 0, 0, 1⟩

/-- C5: for positive `W`, `H`, `infer_intrinsics` puts the principal point at
the image center (`cx = W/2` at entry (0,2), `cy = H/2` at entry (1,2)),
sets `fx = fy` to `1.2 * max(W, H)` when no focal override is given and to
the override otherwise; determinism/purity is inherent: it is a function
of exactly `(W, H, override)`. -/
theorem infer_intrinsics_spec (w h : ℤ) (o : Option ℚ) (hw : 0 < w) (hh : 0 < h) :
    (infer_intrinsics w h o).m02 = (w : ℚ) / 2 ∧
    (infer_intrinsics w h o).m12 = (h : ℚ) / 2 ∧
    (infer_intrinsics w h o).m00 = (infer_intrinsics w h o).m11 ∧
    (o = none → (infer_intrinsics w h o).m00 = 6 / 5 * max (w : ℚ) (h : ℚ)) ∧
    (∀ f : ℚ, o = some f → (infer_intrinsics w h o).m00 = f) := by
  refine ⟨rfl, rfl, ?_, ?_, ?_⟩
  · cases o <;> rfl
  · rintro rfl
    simp [infer_intrinsics]
  · rintro f rfl
    rfl

/-- Witness for `infer_intrinsics_spec` at `W = 4`, `H = 3`, no override. -/
theorem infer_intrinsics_spec_witness :
    (infer_intrinsics 4 3 none).m02 = (4 : ℚ) / 2 ∧
    (infer_intrinsics 4 3 none).m12 = (3 : ℚ) / 2 ∧
    (infer_intrinsics 4 3 none).m00 = (infer_intrinsics 4 3 none).m11 ∧
    (none = (none : Option ℚ) →
      (infer_intrinsics 4 3 none).m00 = 6 / 5 * max (4 : ℚ) 3) ∧
    (∀ f : ℚ, (none : Option ℚ) = some f → (infer_intrinsics 4 3 none).m00 = f) :=
  infer_intrinsics_spec 4 3 none (by decide) (by decide)

/-- Pixels of one row: `rowPix v u r` lists `(v, u + k, r[k])` for each entry
of `r`, i.e. (row index, column index, value) triples. -/
def rowPix (v : ℕ) : ℕ → List ℚ → List (ℕ × ℕ × ℚ)
  | _, [] => []
  | u, x :: xs => (v, u, x) :: rowPix v (u + 1) xs

/-- All pixels of a depth map as (row, column, value) triples, rows first —
the flat enumeration implicit in numpy's whole-array operations. -/
def pixRows : ℕ → List (List ℚ) → List (ℕ × ℕ × ℚ)
  | _, [] => []
  | v, r :: rs => rowPix v 0 r ++ pixRows (v + 1) rs

/-- All pixels of a depth map, starting at row 0. -/
def pixList (d : List (List ℚ)) : List (ℕ × ℕ × ℚ) :=
  pixRows 0 d

/-- `depth.min()`: minimum over all entries (0 on an empty array, a case the
source never evaluates). -/
def dmin (d : List (List ℚ)) : ℚ :=
  match d.flatten with
  | [] => 0
  | x :: xs => xs.foldl min x

/-- `depth.max()`: maximum over all entries (0 on an empty array). -/
def dmax (d : List (List ℚ)) : ℚ :=
  match d.flatten with
  | [] => 0
  | x :: xs => xs.foldl max x

/-- Embeds the normalization step of `estimate_depth`:
`depth = (depth - depth.min()) / (depth.max() - depth.min() + 1e-8)`. -/
def normalizeDepth (d : List (List ℚ)) : List (List ℚ) :=
  let m := dmin d
  let M := dmax d
  d.map (List.map fun x => (x - m) / (M - m + 1 / 100000000))

/-- One output pixel of the bilateral filter at position `(v, u)` with centre
value `x`: the kernel-weighted average of all source pixels, normalized by
the total weight. -/
def bilatPixel (w : ℕ × ℕ → ℕ × ℕ → ℚ → ℚ → ℚ) (src : List (ℕ × ℕ × ℚ))
    (v u : ℕ) (x : ℚ) : ℚ :=
  (src.map fun q => w (v, u) (q.1, q.2.1) x q.2.2 * q.2.2).sum /
    (src.map fun q => w (v, u) (q.1, q.2.1) x q.2.2).sum

/-- Bilateral filter, one row. -/
def bilatRow (w : ℕ × ℕ → ℕ × ℕ → ℚ → ℚ → ℚ) (src : List (ℕ × ℕ × ℚ))
    (v : ℕ) : ℕ → List ℚ → List ℚ
  | _, [] => []
  | u, x :: xs => bilatPixel w src v u x :: bilatRow w src v (u + 1) xs

/-- Bilateral filter, all rows. -/
def bilatRows (w : ℕ × ℕ → ℕ × ℕ → ℚ → ℚ → ℚ) (src : List (ℕ × ℕ × ℚ)) :
    ℕ → List (List ℚ) → List (List ℚ)
  | _, [] => []
  | v, r :: rs => bilatRow w src v 0 r :: bilatRows w src (v + 1) rs

/-- Modelled from the spec: `cv2.bilateralFilter(depth, d=9, sigmaColor=0.1,
sigmaSpace=7)` is external OpenCV code; per spec §4.2 it is an
"edge-preserving smoothing filter (bilateral, spatial-and-range weighted)",
i.e. at each pixel a normalized weighted average of source pixels. The
kernel `w` (a function of both positions, the centre value and the source
value) is a parameter; the concrete window/sigma choices are instances. -/
def bilateralFilter (w : ℕ × ℕ → ℕ × ℕ → ℚ → ℚ → ℚ) (d : List (List ℚ)) :
    List (List ℚ) :=
  bilatRows w (pixList d) 0 d

/-- Embeds the post-processing tail of `estimate_depth` (lines 93–97):
min-max normalization with a `1e-8` denominator epsilon, then the bilateral
filter. The model/transform inference producing `raw` (the interpolated
MiDaS prediction) is external. -/
def estimate_depth (w : ℕ × ℕ → ℕ × ℕ → ℚ → ℚ → ℚ) (raw : List (List ℚ)) :
    List (List ℚ) :=
  bilateralFilter w (normalizeDepth raw)

/-- Embeds `depth_to_pointcloud(depth, K)`: for every pixel `(u, v)` with
value `d`, `z = d * 3.0`, `x = (u - cx) * z / fx`, `y = (v - cy) * z / fy`;
keep only points whose `z` passes the mask `z > 1e-3`. -/
def depth_to_pointcloud (depth : List (List ℚ)) (K : Mat3) :
    List (ℚ × ℚ × ℚ) :=
  let fx := K.m00
  let fy := K.m11
  let cx := K.m02
  let cy := K.m12
  let pts := (pixList depth).map fun q =>
    let z := q.2.2 * 3
    (((q.2.1 : ℚ) - cx) * z / fx, ((q.1 : ℚ) - cy) * z / fy, z)
  pts.filter fun p => decide ((1 : ℚ) / 1000 < p.2.2)

/-- Every value occurring in `rowPix v u r` is an entry of `r`. -/
theorem rowPix_val_mem (v : ℕ) :
    ∀ (u : ℕ) (r : List ℚ) (q : ℕ × ℕ × ℚ), q ∈ rowPix v u r → q.2.2 ∈ r := by
  intro u r
  induction r generalizing u with
  | nil => intro q hq; simp [rowPix] at hq
  | cons x xs ih =>
    intro q hq
    simp only [rowPix, List.mem_cons] at hq
    rcases hq with rfl | hq
    · simp
    · exact List.mem_cons_of_mem _ (ih _ q hq)

/-- Every value occurring in `pixRows v d` is an entry of `d.flatten`. -/
theorem pixRows_val_mem :
    ∀ (v : ℕ) (d : List (List ℚ)) (q : ℕ × ℕ × ℚ),
      q ∈ pixRows v d → q.2.2 ∈ d.flatten := by
  intro v d
  induction d generalizing v with
  | nil => intro q hq; simp [pixRows] at hq
  | cons r rs ih =>
    intro q hq
    simp only [pixRows, List.mem_append] at hq
    rcases hq with hq | hq
    · exact List.mem_flatten_of_mem (List.mem_cons_self _ _) (rowPix_val_mem _ _ _ _ hq)
    · simp only [List.flatten_cons, List.mem_append]
      exact Or.inr (ih _ q hq)

/-- Every value occurring in `pixList d` is an entry of `d.flatten`. -/
theorem pixList_val_mem (d : List (List ℚ)) (q : ℕ × ℕ × ℚ)
    (hq : q ∈ pixList d) : q.2.2 ∈ d.flatten :=
  pixRows_val_mem 0 d q hq

/-- If every entry of the depth map is 0, the back-projection is empty:
each `z = 0 * 3` fails the `z > 1e-3` mask. Shared by C7 and C10. -/
theorem depth_to_pointcloud_eq_nil_of_zero (d : List (List ℚ)) (K : Mat3)
    (h0 : ∀ x ∈ d.flatten, x = 0) : depth_to_pointcloud d K = [] := by
  apply List.filter_eq_nil_iff.2
  intro p hp
  simp only [List.mem_map] at hp
  obtain ⟨q, hq, rfl⟩ := hp
  have hz : q.2.2 = 0 := h0 _ (pixList_val_mem d q hq)
  simp [hz]

/-- Folding `min` never goes above the initial accumulator. -/
theorem foldl_min_le_init (l : List ℚ) : ∀ a : ℚ, l.foldl min a ≤ a := by
  induction l with
  | nil => intro a; exact le_refl a
  | cons x xs ih => intro a; exact (ih (min a x)).trans (min_le_left a x)

/-- Folding `min` never goes above any list element. -/
theorem foldl_min_le_mem (l : List ℚ) :
    ∀ (a : ℚ), ∀ x ∈ l, l.foldl min a ≤ x := by
  induction l with
  | nil => intro a x hx; simp at hx
  | cons y ys ih =>
    intro a x hx
    rcases List.mem_cons.1 hx with rfl | hx
    · exact (foldl_min_le_init ys (min a x)).trans (min_le_right a x)
    · exact ih (min a y) x hx

/-- Folding `max` never goes below the initial accumulator. -/
theorem init_le_foldl_max (l : List ℚ) : ∀ a : ℚ, a ≤ l.foldl max a := by
  induction l with
  | nil => intro a; exact le_refl a
  | cons x xs ih => intro a; exact (le_max_left a x).trans (ih (max a x))

/-- Folding `max` never goes below any list element. -/
theorem mem_le_foldl_max (l : List ℚ) :
    ∀ (a : ℚ), ∀ x ∈ l, x ≤ l.foldl max a := by
  induction l with
  | nil => intro a x hx; simp at hx
  | cons y ys ih =>
    intro a x hx
    rcases List.mem_cons.1 hx with rfl | hx
    · exact (le_max_right a x).trans (init_le_foldl_max ys (max a x))
    · exact ih (max a y) x hx

/-- `depth.min()` bounds every entry from below. -/
theorem dmin_le (d : List (List ℚ)) : ∀ x ∈ d.flatten, dmin d ≤ x := by
  intro x hx
  unfold dmin
  split
  · next heq => rw [heq] at hx; simp at hx
  · next y ys heq =>
    rw [heq] at hx
    rcases List.mem_cons.1 hx with rfl | h
    · exact foldl_min_le_init ys x
    · exact foldl_min_le_mem ys y x h

/-- `depth.max()` bounds every entry from above. -/
theorem le_dmax (d : List (List ℚ)) : ∀ x ∈ d.flatten, x ≤ dmax d := by
  intro x hx
  unfold dmax
  split
  · next heq => rw [heq] at hx; simp at hx
  · next y ys heq =>
    rw [heq] at hx
    rcases List.mem_cons.1 hx with rfl | h
    · exact init_le_foldl_max ys x
    · exact mem_le_foldl_max ys y x h

/-- The min never exceeds the max (for an empty map both are 0). -/
theorem dmin_le_dmax (d : List (List ℚ)) : dmin d ≤ dmax d := by
  rcases hd : d.flatten with _ | ⟨y, ys⟩
  · simp [dmin, dmax, hd]
  · have hy : y ∈ d.flatten := by rw [hd]; exact List.mem_cons_self y ys
    exact (dmin_le d y hy).trans (le_dmax d y hy)

/-- The normalization denominator `max - min + 1e-8` is strictly positive for
every input map — in particular constant maps do not divide by zero. -/
theorem norm_den_pos (d : List (List ℚ)) :
    0 < dmax d - dmin d + 1 / 100000000 := by
  have h := dmin_le_dmax d
  have : (0 : ℚ) < 1 / 100000000 := by norm_num
  linarith

/-- Each entry of the normalized map lies in `[0, 1]`. -/
theorem normalizeDepth_range (d : List (List ℚ)) :
    ∀ r ∈ normalizeDepth d, ∀ y ∈ r, 0 ≤ y ∧ y ≤ 1 := by
  intro r hr y hy
  simp only [normalizeDepth, List.mem_map] at hr
  obtain ⟨r0, hr0, rfl⟩ := hr
  simp only [List.mem_map] at hy
  obtain ⟨x, hx, rfl⟩ := hy
  have hmem : x ∈ d.flatten := List.mem_flatten_of_mem hr0 hx
  have hm : dmin d ≤ x := dmin_le d x hmem
  have hM : x ≤ dmax d := le_dmax d x hmem
  have hden : 0 < dmax d - dmin d + 1 / 100000000 := norm_den_pos d
  constructor
  · exact div_nonneg (by linarith) hden.le
  · rw [div_le_one hden]
    linarith

/-- A quotient `a / b` with `0 ≤ a ≤ b` lies in `[0, 1]` (including the
degenerate `b = 0`, where rational division yields 0). -/
theorem div_mem_unit (a b : ℚ) (ha : 0 ≤ a) (hab : a ≤ b) :
    0 ≤ a / b ∧ a / b ≤ 1 := by
  rcases eq_or_lt_of_le (ha.trans hab) with hb | hb
  · have ha0 : a = 0 := le_antisymm (hab.trans hb.symm.le) ha
    simp [ha0]
  · exact ⟨div_nonneg ha hb.le, (div_le_one hb).2 hab⟩

/-- A bilateral output pixel is in `[0, 1]` whenever the kernel is
nonnegative and all source values are in `[0, 1]`. -/
theorem bilatPixel_range (w : ℕ × ℕ → ℕ × ℕ → ℚ → ℚ → ℚ)
    (src : List (ℕ × ℕ × ℚ)) (hw : ∀ p q x y, 0 ≤ w p q x y)
    (hsrc : ∀ q ∈ src, 0 ≤ q.2.2 ∧ q.2.2 ≤ 1) (v u : ℕ) (x : ℚ) :
    0 ≤ bilatPixel w src v u x ∧ bilatPixel w src v u x ≤ 1 := by
  unfold bilatPixel
  apply div_mem_unit
  · apply List.sum_nonneg
    intro y hy
    simp only [List.mem_map] at hy
    obtain ⟨q, hq, rfl⟩ := hy
    exact mul_nonneg (hw _ _ _ _) (hsrc q hq).1
  · apply List.sum_le_sum
    intro q hq
    exact mul_le_of_le_one_right (hw _ _ _ _) (hsrc q hq).2

/-- Row version of `bilatPixel_range`. -/
theorem bilatRow_range (w : ℕ × ℕ → ℕ × ℕ → ℚ → ℚ → ℚ)
    (src : List (ℕ × ℕ × ℚ)) (hw : ∀ p q x y, 0 ≤ w p q x y)
    (hsrc : ∀ q ∈ src, 0 ≤ q.2.2 ∧ q.2.2 ≤ 1) (v : ℕ) :
    ∀ (u : ℕ) (r : List ℚ), ∀ y ∈ bilatRow w src v u r, 0 ≤ y ∧ y ≤ 1 := by
  intro u r
  induction r generalizing u with
  | nil => intro y hy; simp [bilatRow] at hy
  | cons x xs ih =>
    intro y hy
    simp only [bilatRow, List.mem_cons] at hy
    rcases hy with rfl | hy
    · exact bilatPixel_range w src hw hsrc v u x
    · exact ih (u + 1) y hy

/-- All-rows version of `bilatPixel_range`. -/
theorem bilatRows_range (w : ℕ × ℕ → ℕ × ℕ → ℚ → ℚ → ℚ)
    (src : List (ℕ × ℕ × ℚ)) (hw : ∀ p q x y, 0 ≤ w p q x y)
    (hsrc : ∀ q ∈ src, 0 ≤ q.2.2 ∧ q.2.2 ≤ 1) :
    ∀ (v : ℕ) (rs : List (List ℚ)), ∀ r ∈ bilatRows w src v rs,
      ∀ y ∈ r, 0 ≤ y ∧ y ≤ 1 := by
  intro v rs
  induction rs generalizing v with
  | nil => intro r hr; simp [bilatRows] at hr
  | cons r0 rest ih =>
    intro r hr
    simp only [bilatRows, List.mem_cons] at hr
    rcases hr with rfl | hr
    · exact bilatRow_range w src hw hsrc v 0 r0
    · exact ih (v + 1) r hr

/-- C6: for every (finite = rational-valued) raw depth map, the Depth
Post-Processor's normalization denominator `max - min + 1e-8` is strictly
positive (so a constant input map does not divide by zero), and — for any
nonnegative bilateral kernel — every entry of the post-processed output
`estimate_depth` lies in `[0, 1]`. -/
theorem estimate_depth_range (w : ℕ × ℕ → ℕ × ℕ → ℚ → ℚ → ℚ)
    (d : List (List ℚ)) (hw : ∀ p q x y, 0 ≤ w p q x y) :
    0 < dmax d - dmin d + 1 / 100000000 ∧
    ∀ r ∈ estimate_depth w d, ∀ y ∈ r, 0 ≤ y ∧ y ≤ 1 := by
  refine ⟨norm_den_pos d, ?_⟩
  have hsrc : ∀ q ∈ pixList (normalizeDepth d), 0 ≤ q.2.2 ∧ q.2.2 ≤ 1 := by
    intro q hq
    have hval : q.2.2 ∈ (normalizeDepth d).flatten := pixList_val_mem _ q hq
    obtain ⟨r, hr, hy⟩ := List.mem_flatten.1 hval
    exact normalizeDepth_range d r hr _ hy
  exact bilatRows_range w (pixList (normalizeDepth d)) hw hsrc 0 (normalizeDepth d)

/-- The constant-1 kernel: a legitimate instance of the bilateral weight. -/
def unitKernel : ℕ × ℕ → ℕ × ℕ → ℚ → ℚ → ℚ := fun _ _ _ _ => 1

/-- The 0-th element (with default) of a nonempty list is a member. -/
theorem getD_zero_mem {α : Type} (l : List α) (d : α) (h : 0 < l.length) :
    l.getD 0 d ∈ l := by
  cases l with
  | nil => simp at h
  | cons x xs => simp [List.getD]

/-- Witness for `estimate_depth_range` at the map `[[0, 7]]` with the
constant-1 kernel; the checked entry is the map's first output pixel. -/
theorem estimate_depth_range_witness :
    0 < dmax [[0, 7]] - dmin [[0, 7]] + 1 / 100000000 ∧
    0 ≤ ((estimate_depth unitKernel [[0, 7]]).getD 0 []).getD 0 5 ∧
    ((estimate_depth unitKernel [[0, 7]]).getD 0 []).getD 0 5 ≤ 1 := by
  have h := estimate_depth_range unitKernel [[0, 7]]
    (fun _ _ _ _ => by norm_num [unitKernel])
  refine ⟨h.1, ?_⟩
  have hr : (estimate_depth unitKernel [[0, 7]]).getD 0 [] ∈
      estimate_depth unitKernel [[0, 7]] := getD_zero_mem _ _ (by decide)
  have hy : ((estimate_depth unitKernel [[0, 7]]).getD 0 []).getD 0 5 ∈
      (estimate_depth unitKernel [[0, 7]]).getD 0 [] := getD_zero_mem _ _ (by decide)
  exact h.2 _ hr _ hy

/-- C7: a depth map that is exactly 0 at every pixel back-projects to the
empty point cloud — every scaled depth `z = 0 * 3.0` fails the strict
`z > 1e-3` mask, so every pixel is discarded. -/
theorem depth_to_pointcloud_all_zero (d : List (List ℚ)) (K : Mat3)
    (h0 : ∀ x ∈ d.flatten, x = 0) : depth_to_pointcloud d K = [] :=
  depth_to_pointcloud_eq_nil_of_zero d K h0

/-- Witness for `depth_to_pointcloud_all_zero`: a 2×2 all-zero map with the
default intrinsics of a 2×2 image. -/
theorem depth_to_pointcloud_all_zero_witness :
    depth_to_pointcloud [[0, 0], [0, 0]] (infer_intrinsics 2 2 none) = [] :=
  depth_to_pointcloud_all_zero [[0, 0], [0, 0]] (infer_intrinsics 2 2 none)
    (by decide)

/-- Folding `min` returns the accumulator or one of the elements. -/
theorem foldl_min_mem (l : List ℚ) : ∀ a : ℚ, l.foldl min a ∈ a :: l := by
  induction l with
  | nil => intro a; simp
  | cons x xs ih =>
    intro a
    rw [List.foldl_cons]
    rcases List.mem_cons.1 (ih (min a x)) with h | h
    · rcases min_choice a x with hc | hc
      · exact List.mem_cons.2 (Or.inl (h.trans hc))
      · exact List.mem_cons.2 (Or.inr (List.mem_cons.2 (Or.inl (h.trans hc))))
    · exact List.mem_cons.2 (Or.inr (List.mem_cons.2 (Or.inr h)))

/-- On a nonempty map, `depth.min()` is one of the entries. -/
theorem dmin_mem (d : List (List ℚ)) (h : d.flatten ≠ []) :
    dmin d ∈ d.flatten := by
  unfold dmin
  split
  · next heq => exact absurd heq h
  · next y ys heq => rw [heq]; exact foldl_min_mem ys y

/-- Normalizing a constant map yields 0 at every pixel: the numerator
`x - min` vanishes while the `1e-8` keeps the denominator nonzero. -/
theorem normalizeDepth_const_zero (d : List (List ℚ)) (c : ℚ)
    (hc : ∀ x ∈ d.flatten, x = c) :
    ∀ r ∈ normalizeDepth d, ∀ y ∈ r, y = 0 := by
  intro r hr y hy
  simp only [normalizeDepth, List.mem_map] at hr
  obtain ⟨r0, hr0, rfl⟩ := hr
  simp only [List.mem_map] at hy
  obtain ⟨x, hx, rfl⟩ := hy
  have hmem : x ∈ d.flatten := List.mem_flatten_of_mem hr0 hx
  have hmc : dmin d = c := hc _ (dmin_mem d (List.ne_nil_of_mem hmem))
  rw [hc x hmem, hmc, sub_self, zero_div]

/-- A bilateral output pixel over an all-zero source is 0, whatever the
kernel: the weighted numerator is a sum of zeros. -/
theorem bilatPixel_zero (w : ℕ × ℕ → ℕ × ℕ → ℚ → ℚ → ℚ)
    (src : List (ℕ × ℕ × ℚ)) (hsrc : ∀ q ∈ src, q.2.2 = 0) (v u : ℕ)
    (x : ℚ) : bilatPixel w src v u x = 0 := by
  unfold bilatPixel
  have hnum : (src.map fun q => w (v, u) (q.1, q.2.1) x q.2.2 * q.2.2).sum = 0 := by
    apply List.sum_eq_zero
    intro y hy
    simp only [List.mem_map] at hy
    obtain ⟨q, hq, rfl⟩ := hy
    rw [hsrc q hq, mul_zero]
  rw [hnum, zero_div]

/-- Row version of `bilatPixel_zero`. -/
theorem bilatRow_zero (w : ℕ × ℕ → ℕ × ℕ → ℚ → ℚ → ℚ)
    (src : List (ℕ × ℕ × ℚ)) (hsrc : ∀ q ∈ src, q.2.2 = 0) (v : ℕ) :
    ∀ (u : ℕ) (r : List ℚ), ∀ y ∈ bilatRow w src v u r, y = 0 := by
  intro u r
  induction r generalizing u with
  | nil => intro y hy; simp [bilatRow] at hy
  | cons x xs ih =>
    intro y hy
    simp only [bilatRow, List.mem_cons] at hy
    rcases hy with rfl | hy
    · exact bilatPixel_zero w src hsrc v u x
    · exact ih (u + 1) y hy

/-- All-rows version of `bilatPixel_zero`. -/
theorem bilatRows_zero (w : ℕ × ℕ → ℕ × ℕ → ℚ → ℚ → ℚ)
    (src : List (ℕ × ℕ × ℚ)) (hsrc : ∀ q ∈ src, q.2.2 = 0) :
    ∀ (v : ℕ) (rs : List (List ℚ)), ∀ r ∈ bilatRows w src v rs,
      ∀ y ∈ r, y = 0 := by
  intro v rs
  induction rs generalizing v with
  | nil => intro r hr; simp [bilatRows] at hr
  | cons r0 rest ih =>
    intro r hr
    simp only [bilatRows, List.mem_cons] at hr
    rcases hr with rfl | hr
    · exact bilatRow_zero w src hsrc v 0 r0
    · exact ih (v + 1) r hr

/-- The bilateral filter preserves each row's length. -/
theorem bilatRow_length (w : ℕ × ℕ → ℕ × ℕ → ℚ → ℚ → ℚ)
    (src : List (ℕ × ℕ × ℚ)) (v : ℕ) :
    ∀ (u : ℕ) (r : List ℚ), (bilatRow w src v u r).length = r.length := by
  intro u r
  induction r generalizing u with
  | nil => rfl
  | cons x xs ih => simp [bilatRow, ih]

/-- The bilateral filter preserves the row structure (each row's length). -/
theorem bilatRows_shape (w : ℕ × ℕ → ℕ × ℕ → ℚ → ℚ → ℚ)
    (src : List (ℕ × ℕ × ℚ)) :
    ∀ (v : ℕ) (rs : List (List ℚ)),
      (bilatRows w src v rs).map List.length = rs.map List.length := by
  intro v rs
  induction rs generalizing v with
  | nil => rfl
  | cons r rest ih => simp [bilatRows, bilatRow_length, ih]

/-- Normalization preserves the row structure. -/
theorem normalizeDepth_shape (d : List (List ℚ)) :
    (normalizeDepth d).map List.length = d.map List.length := by
  simp [normalizeDepth, List.map_map, Function.comp_def]

/-- The Depth Post-Processor maps any constant input to the all-zero map;
shared helper for the constant-input and end-to-end results. -/
theorem estimate_depth_const_zero (d : List (List ℚ)) (c : ℚ)
    (w : ℕ × ℕ → ℕ × ℕ → ℚ → ℚ → ℚ) (hc : ∀ x ∈ d.flatten, x = c) :
    ∀ r ∈ estimate_depth w d, ∀ y ∈ r, y = 0 := by
  have hsrc : ∀ q ∈ pixList (normalizeDepth d), q.2.2 = 0 := by
    intro q hq
    obtain ⟨r, hr, hy⟩ := List.mem_flatten.1 (pixList_val_mem _ q hq)
    exact normalizeDepth_const_zero d c hc r hr _ hy
  exact bilatRows_zero w _ hsrc 0 _

/-- C10: on a constant-valued raw depth map, the post-processor emits the
identically-zero map of the same shape (zero numerator, epsilon
denominator; a bilateral average of zeros is zero), and the Back-Projector
then yields the empty point cloud. -/
theorem constant_depth_collapses (d : List (List ℚ)) (c : ℚ)
    (w : ℕ × ℕ → ℕ × ℕ → ℚ → ℚ → ℚ) (K : Mat3)
    (hc : ∀ x ∈ d.flatten, x = c) :
    (estimate_depth w d).map List.length = d.map List.length ∧
    (∀ r ∈ estimate_depth w d, ∀ y ∈ r, y = 0) ∧
    depth_to_pointcloud (estimate_depth w d) K = [] := by
  have hzero : ∀ r ∈ estimate_depth w d, ∀ y ∈ r, y = 0 :=
    estimate_depth_const_zero d c w hc
  refine ⟨?_, hzero, ?_⟩
  · show (bilatRows w (pixList (normalizeDepth d)) 0
        (normalizeDepth d)).map List.length = d.map List.length
    rw [bilatRows_shape, normalizeDepth_shape]
  · apply depth_to_pointcloud_eq_nil_of_zero
    intro x hx
    obtain ⟨r, hr, hy⟩ := List.mem_flatten.1 hx
    exact hzero r hr x hy

/-- Witness for `constant_depth_collapses`: the constant map of value 5 on a
2×2 grid, checked at the first output pixel. -/
theorem constant_depth_collapses_witness :
    (estimate_depth unitKernel [[5, 5], [5, 5]]).map List.length =
      [[(5 : ℚ), 5], [5, 5]].map List.length ∧
    ((estimate_depth unitKernel [[5, 5], [5, 5]]).getD 0 []).getD 0 1 = 0 ∧
    depth_to_pointcloud (estimate_depth unitKernel [[5, 5], [5, 5]])
      (infer_intrinsics 2 2 none) = [] := by
  have h := constant_depth_collapses [[5, 5], [5, 5]] 5 unitKernel
    (infer_intrinsics 2 2 none) (by decide)
  exact ⟨h.1,
    h.2.1 _ (getD_zero_mem _ _ (by decide)) _ (getD_zero_mem _ _ (by decide)),
    h.2.2⟩

/-- A triangle mesh: an ordered vertex list (3-D positions) and an ordered
triangle list (3 vertex indices each) — the observable state of an Open3D
`TriangleMesh` that this pipeline reads. -/
structure Mesh where
  vertices : List (ℚ × ℚ × ℚ)
  triangles : List (ℕ × ℕ × ℕ)
deriving DecidableEq

/-- `np.clip(a, lo, hi)`: `min(max(a, lo), hi)`. -/
def clipNp (a lo hi : ℚ) : ℚ :=
  min (max a lo) hi

/-- The per-vertex body of `compute_uv`:
`u = fx*X/(Z+eps) + cx`, `v = fy*Y/(Z+eps) + cy` with `eps = 1e-6`,
`u = clip(u/img_w, 0, 1)`, `v = clip(v/img_h, 0, 1)`, `v = 1.0 - v`. -/
def uvOfVertex (K : Mat3) (img_w img_h : ℤ) (p : ℚ × ℚ × ℚ) : ℚ × ℚ :=
  let fx := K.m00
  let fy := K.m11
  let cx := K.m02
  let cy := K.m12
  let eps : ℚ := 1 / 1000000
  let u := fx * p.1 / (p.2.2 + eps) + cx
  let v := fy * p.2.1 / (p.2.2 + eps) + cy
  let u1 := clipNp (u / (img_w : ℚ)) 0 1
  let v1 := clipNp (v / (img_h : ℚ)) 0 1
  (u1, 1 - v1)

/-- Embeds `compute_uv(mesh, K, img_w, img_h)`: the vectorized numpy
computation applies `uvOfVertex` to each row of `np.asarray(mesh.vertices)`
and stacks the results in the same order. -/
def compute_uv (mesh : Mesh) (K : Mat3) (img_w img_h : ℤ) : List (ℚ × ℚ) :=
  mesh.vertices.map (uvOfVertex K img_w img_h)

/-- `np.clip(a, 0, 1)` lands in `[0, 1]`. -/
theorem clipNp_mem_unit (a : ℚ) : 0 ≤ clipNp a 0 1 ∧ clipNp a 0 1 ≤ 1 :=
  ⟨le_min (le_max_right a 0) zero_le_one, min_le_right _ 1⟩

/-- C4: for every mesh and positive image dimensions, `compute_uv` returns
one UV pair per vertex in the same order (it is exactly the vertex-wise
map of the projection body), and every returned coordinate lies in
`[0,1] × [0,1]`. -/
theorem compute_uv_spec (mesh : Mesh) (K : Mat3) (img_w img_h : ℤ)
    (hw : 0 < img_w) (hh : 0 < img_h) :
    (compute_uv mesh K img_w img_h).length = mesh.vertices.length ∧
    compute_uv mesh K img_w img_h =
      mesh.vertices.map (uvOfVertex K img_w img_h) ∧
    ∀ p ∈ compute_uv mesh K img_w img_h,
      0 ≤ p.1 ∧ p.1 ≤ 1 ∧ 0 ≤ p.2 ∧ p.2 ≤ 1 := by
  refine ⟨List.length_map _ _, rfl, ?_⟩
  intro p hp
  simp only [compute_uv, List.mem_map] at hp
  obtain ⟨q, hq, rfl⟩ := hp
  unfold uvOfVertex
  have hu := clipNp_mem_unit ((K.m00 * q.1 / (q.2.2 + 1 / 1000000) + K.m02) /
    (img_w : ℚ))
  have hv := clipNp_mem_unit ((K.m11 * q.2.1 / (q.2.2 + 1 / 1000000) + K.m12) /
    (img_h : ℚ))
  exact ⟨hu.1, hu.2, by linarith [hv.2], by linarith [hv.1]⟩

/-- A one-vertex mesh used as a concrete input. -/
def uvMesh0 : Mesh :=
  ⟨[(1, 2, 3)], []⟩

/-- Witness for `compute_uv_spec` on a one-vertex mesh with the default
intrinsics of a 4×3 image, checked at the first UV pair. -/
theorem compute_uv_spec_witness :
    (compute_uv uvMesh0 (infer_intrinsics 4 3 none) 4 3).length =
      uvMesh0.vertices.length ∧
    0 ≤ ((compute_uv uvMesh0 (infer_intrinsics 4 3 none) 4 3).getD 0 (0, 0)).1 ∧
    ((compute_uv uvMesh0 (infer_intrinsics 4 3 none) 4 3).getD 0 (0, 0)).1 ≤ 1 := by
  have h := compute_uv_spec uvMesh0 (infer_intrinsics 4 3 none) 4 3
    (by decide) (by decide)
  have hm : (compute_uv uvMesh0 (infer_intrinsics 4 3 none) 4 3).getD 0 (0, 0) ∈
      compute_uv uvMesh0 (infer_intrinsics 4 3 none) 4 3 :=
    getD_zero_mem _ _ (by decide)
  exact ⟨h.1, (h.2.2 _ hm).1, (h.2.2 _ hm).2.1⟩

/-- Setting the slot just past an appended singleton replaces it. -/
theorem set_append_length {α : Type} (l : List α) (c v : α) :
    (l ++ [c]).set l.length v = l ++ [v] := by
  induction l with
  | nil => rfl
  | cons x xs ih => simp [List.set, ih]

/-- Reading the appended slot gives the appended value. -/
theorem getD_append_self {α : Type} (l : List α) (v d : α) :
    (l ++ [v]).getD l.length d = v := by
  rw [List.getD_append_right _ _ _ _ le_rfl]
  simp

/-- Scaling a row's values commutes with pixel enumeration. -/
theorem rowPix_map_mul (v : ℕ) :
    ∀ (u : ℕ) (r : List ℚ),
      rowPix v u (r.map (· * 3)) =
        (rowPix v u r).map fun q => (q.1, q.2.1, q.2.2 * 3) := by
  intro u r
  induction r generalizing u with
  | nil => rfl
  | cons x xs ih => simp [rowPix, ih]

/-- Scaling all values commutes with pixel enumeration. -/
theorem pixRows_map_mul :
    ∀ (v : ℕ) (d : List (List ℚ)),
      pixRows v (d.map (List.map (· * 3))) =
        (pixRows v d).map fun q => (q.1, q.2.1, q.2.2 * 3) := by
  intro v d
  induction d generalizing v with
  | nil => rfl
  | cons r rs ih => simp [pixRows, rowPix_map_mul, ih]

/-- Scaling a whole depth map commutes with pixel enumeration. -/
theorem pixList_map_mul (d : List (List ℚ)) :
    pixList (d.map (List.map (· * 3))) =
      (pixList d).map fun q => (q.1, q.2.1, q.2.2 * 3) :=
  pixRows_map_mul 0 d

/-- Heap-level embedding of `depth_to_pointcloud`, making the numpy buffer
operations explicit: the heap is a list of allocated 2-D buffers addressed
by index. `z = depth.copy()` allocates a fresh buffer at the end of the
heap holding the same values; `z = z * 3.0` stores the scaled array in the
`z` buffer (modelled conservatively as an in-place update — even then the
input buffer is untouched, because the scaling targets the copy); the
remaining arrays (`x`, `y`, `pts`, `mask`) are fresh values. Returns the
final heap together with the point list. -/
def depth_to_pointcloud_heap (h : List (List (List ℚ))) (depthId : ℕ)
    (K : Mat3) : List (List (List ℚ)) × List (ℚ × ℚ × ℚ) :=
  let fx := K.m00
  let fy := K.m11
  let cx := K.m02
  let cy := K.m12
  let zId := h.length
  let h1 := h ++ [h.getD depthId []]
  let h2 := h1.set zId ((h1.getD zId []).map (List.map (· * 3)))
  let z := h2.getD zId []
  let pts := (pixList z).map fun q =>
    (((q.2.1 : ℚ) - cx) * q.2.2 / fx, ((q.1 : ℚ) - cy) * q.2.2 / fy, q.2.2)
  (h2, pts.filter fun p => decide ((1 : ℚ) / 1000 < p.2.2))

/-- C9: the Back-Projector leaves its input depth buffer unchanged — the
metric scaling happens on a copy — and the points it returns agree with the
pure function of the original depth values. -/
theorem depth_to_pointcloud_heap_spec (h : List (List (List ℚ)))
    (depthId : ℕ) (K : Mat3) (hid : depthId < h.length) :
    (depth_to_pointcloud_heap h depthId K).1.getD depthId [] =
      h.getD depthId [] ∧
    (depth_to_pointcloud_heap h depthId K).2 =
      depth_to_pointcloud (h.getD depthId []) K := by
  have hget : (h ++ [h.getD depthId []]).getD h.length [] = h.getD depthId [] :=
    getD_append_self h _ []
  have hheap : ((h ++ [h.getD depthId []]).set h.length
      (((h ++ [h.getD depthId []]).getD h.length []).map (List.map (· * 3)))) =
      h ++ [(h.getD depthId []).map (List.map (· * 3))] := by
    rw [hget, set_append_length]
  constructor
  · show ((h ++ [h.getD depthId []]).set h.length
        (((h ++ [h.getD depthId []]).getD h.length []).map
          (List.map (· * 3)))).getD depthId [] = h.getD depthId []
    rw [hheap]
    exact List.getD_append _ _ _ _ hid
  · show ((pixList (((h ++ [h.getD depthId []]).set h.length
        (((h ++ [h.getD depthId []]).getD h.length []).map
          (List.map (· * 3)))).getD h.length [])).map fun q =>
          (((q.2.1 : ℚ) - K.m02) * q.2.2 / K.m00,
           ((q.1 : ℚ) - K.m12) * q.2.2 / K.m11, q.2.2)).filter
        (fun p => decide ((1 : ℚ) / 1000 < p.2.2)) =
      depth_to_pointcloud (h.getD depthId []) K
    rw [hheap, getD_append_self, pixList_map_mul, List.map_map]
    rfl

/-- Witness for `depth_to_pointcloud_heap_spec`: a one-buffer heap holding
the 1×2 depth map `[[1, 2]]`. -/
theorem depth_to_pointcloud_heap_spec_witness :
    (depth_to_pointcloud_heap [[[1, 2]]] 0 (infer_intrinsics 2 1 none)).1.getD
        0 [] = [[[(1 : ℚ), 2]]].getD 0 [] ∧
    (depth_to_pointcloud_heap [[[1, 2]]] 0 (infer_intrinsics 2 1 none)).2 =
      depth_to_pointcloud ([[[(1 : ℚ), 2]]].getD 0 [])
        (infer_intrinsics 2 1 none) :=
  depth_to_pointcloud_heap_spec [[[1, 2]]] 0 (infer_intrinsics 2 1 none)
    (by decide)

/-- The variant-specific preprocessing transforms returned by
`torch.hub.load("intel-isl/MiDaS", "transforms")`. -/
structure MidasTransforms (T : Type) where
  dpt_transform : T
  small_transform : T

/-- The prioritized variant list of `load_midas`:
`["DPT_Large", "DPT_Hybrid", "MiDaS_small"]`, highest quality first. -/
def midas_variants : List String :=
  ["DPT_Large", "DPT_Hybrid", "MiDaS_small"]

/-- The `for model_name in [...]` loop of `load_midas`: `hub name` stands
for `torch.hub.load("intel-isl/MiDaS", name)` followed by
`model.eval().to(device)` (external; any raised exception is the `.error`
case). On success the transform is selected by variant name
(`small_transform` for `"MiDaS_small"`, else `dpt_transform`); on failure
`last_error = e` and the loop continues. After the loop,
`raise RuntimeError(f"Failed to load MiDaS model variants: {last_error}")`
— the raised error carries `last_error` only. -/
def load_midas_loop {E M T : Type} (hub : String → Except E M)
    (tfs : MidasTransforms T) :
    List String → Option E → Except (Option E) (M × T)
  | [], lastError => .error lastError
  | name :: rest, lastError =>
    match hub name with
    | .ok model =>
      .ok (model,
        if name = "MiDaS_small" then tfs.small_transform else tfs.dpt_transform)
    | .error e => load_midas_loop hub tfs rest (some e)

/-- Embeds `load_midas(device)` with the hub loader as a parameter;
`last_error` starts as `None`. -/
def load_midas {E M T : Type} (hub : String → Except E M)
    (tfs : MidasTransforms T) : Except (Option E) (M × T) :=
  load_midas_loop hub tfs midas_variants none

/-- Trivial transforms used for concrete runs. -/
def tfs0 : MidasTransforms Unit :=
  ⟨(), ()⟩

/-- A hub on which every variant fails, with a distinct error per variant. -/
def hubAllFail : String → Except ℕ Unit := fun n =>
  .error (if n = "DPT_Large" then 1 else if n = "DPT_Hybrid" then 2 else 3)

/-- Like `hubAllFail` but with a different error on the first variant. -/
def hubAllFail2 : String → Except ℕ Unit := fun n =>
  .error (if n = "DPT_Large" then 100 else if n = "DPT_Hybrid" then 2 else 3)

/-- C3 counterexample: the raised failure does NOT aggregate the errors of
all attempts. Two hubs whose first-variant errors differ (1 vs 100)
produce identical raised failures — only the last attempt's error (3)
survives, so the information from the earlier attempts is lost. -/
theorem load_midas_not_aggregated :
    hubAllFail "DPT_Large" ≠ hubAllFail2 "DPT_Large" ∧
    load_midas hubAllFail tfs0 = load_midas hubAllFail2 tfs0 ∧
    load_midas hubAllFail tfs0 = .error (some 3) := by
  refine ⟨?_, rfl, rfl⟩
  intro hcontra
  simp only [hubAllFail, hubAllFail2] at hcontra
  norm_num at hcontra

/-- C3 amended: `load_midas` tries the variants in priority order
(`DPT_Large`, then `DPT_Hybrid`, then `MiDaS_small`), falls back to the
next variant on any failure, pairs each variant with the transform selected
by its name (`dpt_transform` for the DPT variants, `small_transform` for
`MiDaS_small`), and raises a single failure only when all three variants
have failed — carrying the error of the LAST attempt only. -/
theorem load_midas_fallback_spec {E M T : Type} (hub : String → Except E M)
    (tfs : MidasTransforms T) :
    (∀ m, hub "DPT_Large" = .ok m →
      load_midas hub tfs = .ok (m, tfs.dpt_transform)) ∧
    (∀ e m, hub "DPT_Large" = .error e → hub "DPT_Hybrid" = .ok m →
      load_midas hub tfs = .ok (m, tfs.dpt_transform)) ∧
    (∀ e1 e2 m, hub "DPT_Large" = .error e1 → hub "DPT_Hybrid" = .error e2 →
      hub "MiDaS_small" = .ok m →
      load_midas hub tfs = .ok (m, tfs.small_transform)) ∧
    (∀ e1 e2 e3, hub "DPT_Large" = .error e1 → hub "DPT_Hybrid" = .error e2 →
      hub "MiDaS_small" = .error e3 →
      load_midas hub tfs = .error (some e3)) := by
  refine ⟨?_, ?_, ?_, ?_⟩
  · intro m h1
    simp [load_midas, midas_variants, load_midas_loop, h1]
  · intro e m h1 h2
    simp [load_midas, midas_variants, load_midas_loop, h1, h2]
  · intro e1 e2 m h1 h2 h3
    simp [load_midas, midas_variants, load_midas_loop, h1, h2, h3]
  · intro e1 e2 e3 h1 h2 h3
    simp [load_midas, midas_variants, load_midas_loop, h1, h2, h3]

/-- A hub on which the first variant already succeeds. -/
def hubOk : String → Except ℕ Unit := fun _ =>
  .ok ()

/-- Witness for `load_midas_fallback_spec`: first-variant success yields the
DPT transform; all-variants failure yields the last error. -/
theorem load_midas_fallback_spec_witness :
    load_midas hubOk tfs0 = .ok ((), tfs0.dpt_transform) ∧
    load_midas hubAllFail tfs0 = .error (some 3) :=
  ⟨(load_midas_fallback_spec hubOk tfs0).1 () rfl,
   (load_midas_fallback_spec hubAllFail tfs0).2.2.2 1 2 3 rfl rfl rfl⟩

/-- An axis-aligned bounding box (Open3D `AxisAlignedBoundingBox`). -/
structure BBox where
  minBound : ℚ × ℚ × ℚ
  maxBound : ℚ × ℚ × ℚ
deriving DecidableEq

/-- The Open3D mesh/point-cloud operators used by `reconstruct_mesh`.
These are external library routines (not code of this repository), so they
appear as parameters; `create_from_point_cloud_poisson` takes the cloud and
the octree depth and also returns the per-vertex densities, which the
source discards. -/
structure MeshOps where
  create_from_point_cloud_poisson : List (ℚ × ℚ × ℚ) → ℕ → Mesh × List ℚ
  get_axis_aligned_bounding_box : List (ℚ × ℚ × ℚ) → BBox
  crop : Mesh → BBox → Mesh
  remove_degenerate_triangles : Mesh → Mesh
  remove_duplicated_triangles : Mesh → Mesh
  remove_duplicated_vertices : Mesh → Mesh
  remove_non_manifold_edges : Mesh → Mesh
  filter_smooth_simple : Mesh → ℕ → Mesh
  simplify_quadric_decimation : Mesh → ℕ → Mesh
  compute_vertex_normals : Mesh → Mesh

/-- The repair prefix of `reconstruct_mesh` (lines 145–155): Poisson at
octree depth 8, crop to the cloud's bounding box, remove degenerate /
duplicated triangles, duplicated vertices, non-manifold edges, then one
iteration of simple smoothing. -/
def repaired_mesh (ops : MeshOps) (pcd : List (ℚ × ℚ × ℚ)) : Mesh :=
  let md := ops.create_from_point_cloud_poisson pcd 8
  let mesh := md.1
  let bbox := ops.get_axis_aligned_bounding_box pcd
  let mesh := ops.crop mesh bbox
  let mesh := ops.remove_degenerate_triangles mesh
  let mesh := ops.remove_duplicated_triangles mesh
  let mesh := ops.remove_duplicated_vertices mesh
  let mesh := ops.remove_non_manifold_edges mesh
  ops.filter_smooth_simple mesh 1

/-- Embeds `reconstruct_mesh(pcd)` (lines 144–161): after the repair
prefix, `target = min(len(mesh.triangles), 150_000)`; decimation runs
whenever `target > 0`; finally vertex normals are computed. -/
def reconstruct_mesh (ops : MeshOps) (pcd : List (ℚ × ℚ × ℚ)) : Mesh :=
  let mesh := repaired_mesh ops pcd
  let target := min mesh.triangles.length 150000
  let mesh := if 0 < target then ops.simplify_quadric_decimation mesh target
    else mesh
  ops.compute_vertex_normals mesh

/-- C8: assuming the Open3D quadric-decimation contract (the result has at
most the requested number of triangles) and that computing vertex normals
does not change the triangle list, every mesh `reconstruct_mesh` returns
has at most 150,000 triangles. -/
theorem reconstruct_mesh_budget (ops : MeshOps) (pcd : List (ℚ × ℚ × ℚ))
    (hsimp : ∀ (m : Mesh) (t : ℕ),
      (ops.simplify_quadric_decimation m t).triangles.length ≤ t)
    (hnorm : ∀ m : Mesh,
      (ops.compute_vertex_normals m).triangles.length = m.triangles.length) :
    (reconstruct_mesh ops pcd).triangles.length ≤ 150000 := by
  simp only [reconstruct_mesh]
  rw [hnorm]
  split
  · next hpos => exact (hsimp _ _).trans (min_le_right _ _)
  · next hpos => omega

/-- A one-triangle mesh. -/
def meshTri : Mesh :=
  ⟨[(0, 0, 0), (1, 0, 0), (0, 1, 0)], [(0, 1, 2)]⟩

/-- Concrete library operators: Poisson returns `meshTri`, the repair steps
are identities, and decimation truncates the triangle list to the target
(satisfying the decimation contract). -/
def opsW : MeshOps where
  create_from_point_cloud_poisson := fun _ _ => (meshTri, [])
  get_axis_aligned_bounding_box := fun _ => ⟨(0, 0, 0), (0, 0, 0)⟩
  crop := fun m _ => m
  remove_degenerate_triangles := id
  remove_duplicated_triangles := id
  remove_duplicated_vertices := id
  remove_non_manifold_edges := id
  filter_smooth_simple := fun m _ => m
  simplify_quadric_decimation := fun m t => ⟨m.vertices, m.triangles.take t⟩
  compute_vertex_normals := id

/-- Witness for `reconstruct_mesh_budget` with the concrete operators. -/
theorem reconstruct_mesh_budget_witness :
    (reconstruct_mesh opsW []).triangles.length ≤ 150000 :=
  reconstruct_mesh_budget opsW []
    (by intro m t; simp [opsW, List.length_take])
    (by intro m; rfl)

/-- Like `opsW` but decimation returns its input unchanged. -/
def opsA : MeshOps :=
  { opsW with simplify_quadric_decimation := fun m _ => m }

/-- Identical to `opsA` except in the decimation operator, which returns
the empty mesh — a probe making any invocation of decimation observable. -/
def opsB : MeshOps :=
  { opsA with simplify_quadric_decimation := fun _ _ => ⟨[], []⟩ }

/-- C2 counterexample: on a mesh whose triangle count after repair is 1
(well below the 150,000 budget), the simplification step is NOT skipped:
two operator sets that differ only in the decimation operator produce
different outputs, so the mesh is passed through decimation. -/
theorem reconstruct_mesh_decimation_not_skipped :
    (repaired_mesh opsA []).triangles.length = 1 ∧
    (repaired_mesh opsA []).triangles.length ≤ 150000 ∧
    opsB = { opsA with
      simplify_quadric_decimation := opsB.simplify_quadric_decimation } ∧
    reconstruct_mesh opsA [] ≠ reconstruct_mesh opsB [] := by
  refine ⟨rfl, by decide, rfl, ?_⟩
  intro hcontra
  have h1 : reconstruct_mesh opsA [] = meshTri := rfl
  have h2 : reconstruct_mesh opsB [] = ⟨[], []⟩ := rfl
  rw [h1, h2] at hcontra
  simp [meshTri] at hcontra

/-- C2 amended: decimation is skipped exactly when the triangle count after
repair is zero; when the count is positive — including counts at or below
the 150,000 budget — `simplify_quadric_decimation` is invoked with target
`min(count, 150000)`. -/
theorem reconstruct_mesh_simplify_policy (ops : MeshOps)
    (pcd : List (ℚ × ℚ × ℚ)) :
    ((repaired_mesh ops pcd).triangles.length = 0 →
      reconstruct_mesh ops pcd =
        ops.compute_vertex_normals (repaired_mesh ops pcd)) ∧
    (0 < (repaired_mesh ops pcd).triangles.length →
      reconstruct_mesh ops pcd =
        ops.compute_vertex_normals
          (ops.simplify_quadric_decimation (repaired_mesh ops pcd)
            (min (repaired_mesh ops pcd).triangles.length 150000))) := by
  constructor
  · intro h0
    simp only [reconstruct_mesh, h0]
    norm_num
  · intro hpos
    have hmin : 0 < min (repaired_mesh ops pcd).triangles.length 150000 := by
      omega
    simp only [reconstruct_mesh, if_pos hmin]

/-- Like `opsW` but Poisson reconstruction yields the empty mesh (the
behaviour on an empty cloud). -/
def opsE : MeshOps :=
  { opsW with create_from_point_cloud_poisson := fun _ _ => (⟨[], []⟩, []) }

/-- Witness for `reconstruct_mesh_simplify_policy`: the zero-triangle
branch with `opsE`, the positive branch with `opsA`. -/
theorem reconstruct_mesh_simplify_policy_witness :
    reconstruct_mesh opsE [] =
      opsE.compute_vertex_normals (repaired_mesh opsE []) ∧
    reconstruct_mesh opsA [] =
      opsA.compute_vertex_normals
        (opsA.simplify_quadric_decimation (repaired_mesh opsA [])
          (min (repaired_mesh opsA []).triangles.length 150000)) :=
  ⟨(reconstruct_mesh_simplify_policy opsE []).1 rfl,
   (reconstruct_mesh_simplify_policy opsA []).2 (by decide)⟩

/-- The Open3D point-cloud cleanup operators used by `clean_pointcloud`
(external library code, hence parameters):
`voxel_down_sample(voxel_size)`, `remove_statistical_outlier(nb_neighbors,
std_ratio)` (also returning the kept indices, which the source discards),
and `estimate_normals` (returns the cloud carrying normals; the normals
themselves are not consumed by any claim and are not modelled). -/
structure CleanOps where
  voxel_down_sample : List (ℚ × ℚ × ℚ) → ℚ → List (ℚ × ℚ × ℚ)
  remove_statistical_outlier :
    List (ℚ × ℚ × ℚ) → ℕ → ℚ → List (ℚ × ℚ × ℚ) × List ℕ
  estimate_normals : List (ℚ × ℚ × ℚ) → List (ℚ × ℚ × ℚ)

/-- Embeds `clean_pointcloud(pcd)` (lines 130–138): voxel downsample at
0.01, statistical outlier removal with `nb_neighbors=20`, `std_ratio=2.0`,
then normal estimation. -/
def clean_pointcloud (c : CleanOps) (pcd : List (ℚ × ℚ × ℚ)) :
    List (ℚ × ℚ × ℚ) :=
  let pcd1 := c.voxel_down_sample pcd (1 / 100)
  let pr := c.remove_statistical_outlier pcd1 20 2
  let pcd2 := pr.1
  c.estimate_normals pcd2

/-- The decoded input image as the pipeline sees it: `H, W =
image_bgr.shape[:2]`. Pixel colours only feed the external depth model and
the texture copy, so they are carried by `PipelineEnv.predict`. -/
structure InputImage where
  W : ℤ
  H : ℤ
deriving DecidableEq

/-- The external collaborators of one `run_single_image` call:
`imread` is the result of `cv2.imread` on the given input path, `hub` and
`transforms` feed `load_midas`, `predict` is the MiDaS forward pass plus
interpolation producing the raw depth map, `kernel` instantiates the
bilateral filter, and `cleanOps` / `meshOps` are the Open3D operators. -/
structure PipelineEnv (E M T : Type) where
  imread : Option InputImage
  hub : String → Except E M
  transforms : MidasTransforms T
  predict : M → T → InputImage → List (List ℚ)
  kernel : ℕ × ℕ → ℕ × ℕ → ℚ → ℚ → ℚ
  cleanOps : CleanOps
  meshOps : MeshOps

/-- The errors `run_single_image` can raise: `FileNotFoundError` when the
image cannot be decoded, and the `RuntimeError` escaping `load_midas`
(carrying only the last variant's error, see `load_midas_loop`). No other
raise statement exists in the pipeline. -/
inductive RunError (E : Type) where
  | fileNotFound
  | midasFailure (lastError : Option E)
deriving DecidableEq

/-- The artifacts a successful run hands to the external exporters and to
`write_stats`: the final mesh, its UVs, and the stats counts
`{"vertices": len(mesh.vertices), "faces": len(mesh.triangles)}`. A `.ok`
result means the source writes `model.obj`, `model.glb`, `texture.png` and
`stats.json` for these values unconditionally. -/
structure RunOutput where
  mesh : Mesh
  uv : List (ℚ × ℚ)
  statsVertices : ℕ
  statsFaces : ℕ
deriving DecidableEq

/-- Embeds `run_single_image(input_path, output_dir)` (lines 250–286):
decode the image or raise; load MiDaS or propagate its failure; estimate
and post-process depth; infer intrinsics (no focal override);
back-project; clean; reconstruct; compute UVs; then export and write
stats. There is no other control flow: no emptiness check on the point
cloud or the mesh, and no further error case. -/
def run_single_image {E M T : Type} (env : PipelineEnv E M T) :
    Except (RunError E) RunOutput :=
  match env.imread with
  | none => .error .fileNotFound
  | some img =>
    match load_midas env.hub env.transforms with
    | .error e => .error (.midasFailure e)
    | .ok mt =>
      let depth := estimate_depth env.kernel (env.predict mt.1 mt.2 img)
      let K := infer_intrinsics img.W img.H none
      let pcd := depth_to_pointcloud depth K
      let pcd2 := clean_pointcloud env.cleanOps pcd
      let mesh := reconstruct_mesh env.meshOps pcd2
      let uv := compute_uv mesh K img.W img.H
      .ok ⟨mesh, uv, mesh.vertices.length, mesh.triangles.length⟩

/-- Cleanup operators that act as identities on point sets — on the empty
cloud every cleanup operator returns the empty cloud, which is all this
run exercises. -/
def cleanOps0 : CleanOps where
  voxel_down_sample := fun p _ => p
  remove_statistical_outlier := fun p _ _ => (p, [])
  estimate_normals := fun p => p

/-- A concrete run whose depth model returns the constant raw map 5 on a
2×2 image, so the post-processed depth map is zero at every pixel; the
image decodes, every model variant loads, and Poisson reconstruction of
the (empty) cloud yields the empty mesh (`opsE`). -/
def envZeroDepth : PipelineEnv ℕ Unit Unit where
  imread := some ⟨2, 2⟩
  hub := fun _ => .ok ()
  transforms := tfs0
  predict := fun _ _ _ => [[5, 5], [5, 5]]
  kernel := unitKernel
  cleanOps := cleanOps0
  meshOps := opsE

/-- C1 (evidence of the divergence): on an input whose post-processed depth
map is zero everywhere, `run_single_image` does NOT fail — it returns
`.ok` with a zero-vertex, zero-triangle mesh, empty UVs and stats counts
0/0, i.e. it proceeds to export an empty mesh file instead of surfacing a
DegenerateGeometry error; indeed `RunError` has no such case at all. -/
theorem run_single_image_zero_depth_emits_empty :
    run_single_image envZeroDepth = .ok ⟨⟨[], []⟩, [], 0, 0⟩ := by
  have hz : ∀ r ∈ estimate_depth unitKernel [[5, 5], [5, 5]], ∀ y ∈ r, y = 0 :=
    estimate_depth_const_zero [[5, 5], [5, 5]] 5 unitKernel (by decide)
  have hflat : ∀ x ∈ (estimate_depth unitKernel [[5, 5], [5, 5]]).flatten,
      x = 0 := by
    intro x hx
    obtain ⟨r, hr, hy⟩ := List.mem_flatten.1 hx
    exact hz r hr x hy
  have hpcd : depth_to_pointcloud (estimate_depth unitKernel [[5, 5], [5, 5]])
      (infer_intrinsics 2 2 none) = [] :=
    depth_to_pointcloud_eq_nil_of_zero _ _ hflat
  have hdef : run_single_image envZeroDepth =
      .ok ⟨reconstruct_mesh opsE (clean_pointcloud cleanOps0
            (depth_to_pointcloud (estimate_depth unitKernel [[5, 5], [5, 5]])
              (infer_intrinsics 2 2 none))),
          compute_uv (reconstruct_mesh opsE (clean_pointcloud cleanOps0
            (depth_to_pointcloud (estimate_depth unitKernel [[5, 5], [5, 5]])
              (infer_intrinsics 2 2 none)))) (infer_intrinsics 2 2 none) 2 2,
          (reconstruct_mesh opsE (clean_pointcloud cleanOps0
            (depth_to_pointcloud (estimate_depth unitKernel [[5, 5], [5, 5]])
              (infer_intrinsics 2 2 none)))).vertices.length,
          (reconstruct_mesh opsE (clean_pointcloud cleanOps0
            (depth_to_pointcloud (estimate_depth unitKernel [[5, 5], [5, 5]])
              (infer_intrinsics 2 2 none)))).triangles.length⟩ := rfl
  rw [hdef, hpcd]
  rfl

end PlanScan
